import Mathlib

/-!
Shallow embedding of the editing core of the `pepper` text editor
(`src/src/buffer.rs`, `src/src/history.rs`, `src/src/ini.rs`,
`src/lib/command.rs`, `src/lib/picker.rs`,
`src/plugin-remedybg/src/protocol.rs`).

Strings from the Rust code are embedded as lists of bytes (`List Nat`),
since the source indexes strings by byte offsets and slices them at byte
positions; a Rust operation that can panic (out-of-bounds index, slice not
on a UTF-8 char boundary) is embedded as an `Option`-returning function,
`none` standing for the panic.
-/

namespace Pepper

/-- A byte string: the bytes of a Rust `String`/`&str`. -/
abbrev ByteStr := List Nat

/-- Rust `str::is_char_boundary`: index `i` is the start of a UTF-8 encoded
character or the end of the string. A byte starts a character iff it is below
`0x80` or at least `0xC0`. -/
def isCharBoundary (s : ByteStr) (i : Nat) : Bool :=
  if i = s.length then true
  else match s.get? i with
    | some b => b < 0x80 || 0xC0 ≤ b
    | none => false

/-- Rust `str::chars().count()`: the number of characters of a UTF-8 string,
which equals the number of non-continuation bytes. -/
def charCount (s : ByteStr) : Nat :=
  (s.filter fun b => b < 0x80 || 0xC0 ≤ b).length

/-- Rust string slice `&s[a..b]`: panics unless `a ≤ b ≤ s.len()` and both
ends are char boundaries. -/
def sliceGet (s : ByteStr) (a b : Nat) : Option ByteStr :=
  if a ≤ b ∧ b ≤ s.length ∧ isCharBoundary s a ∧ isCharBoundary s b then
    some ((s.drop a).take (b - a))
  else
    none

/-- Rust string slice `&s[a..]`. -/
def sliceFrom (s : ByteStr) (a : Nat) : Option ByteStr :=
  sliceGet s a s.length

/-- Rust string slice `&s[..b]`. -/
def sliceTo (s : ByteStr) (b : Nat) : Option ByteStr :=
  sliceGet s 0 b

/-- Rust `String::insert_str(i, t)`: panics unless `i` is a char boundary. -/
def insertStr (s : ByteStr) (i : Nat) (t : ByteStr) : Option ByteStr :=
  if i ≤ s.length ∧ isCharBoundary s i then
    some (s.take i ++ t ++ s.drop i)
  else
    none

/-- Rust `String::drain(a..b)`, returning (drained bytes, remaining string);
panics unless `a ≤ b ≤ s.len()` with both ends on char boundaries. -/
def drainRange (s : ByteStr) (a b : Nat) : Option (ByteStr × ByteStr) :=
  if a ≤ b ∧ b ≤ s.length ∧ isCharBoundary s a ∧ isCharBoundary s b then
    some ((s.drop a).take (b - a), s.take a ++ s.drop b)
  else
    none

/-- Rust `String::drain(a..)`. -/
def drainFrom (s : ByteStr) (a : Nat) : Option (ByteStr × ByteStr) :=
  drainRange s a s.length

/-- Rust `String::truncate(i)`: no-op when `i ≥ len`, panics when `i` is not
a char boundary. -/
def truncateStr (s : ByteStr) (i : Nat) : Option ByteStr :=
  if s.length ≤ i then some s
  else if isCharBoundary s i then some (s.take i) else none

/-- Rust `String::split_off(i)`, returning (kept prefix, split-off tail);
panics unless `i` is a char boundary. -/
def splitOff (s : ByteStr) (i : Nat) : Option (ByteStr × ByteStr) :=
  if i ≤ s.length ∧ isCharBoundary s i then
    some (s.take i, s.drop i)
  else
    none

/-- Modelled from the spec: `src/buffer_position.rs` is not part of the
sources; the spec (§3) gives `Position — {line: u32, column_byte: u32}` with
lexicographic ordering. -/
structure BufferPosition where
  line_index : Nat
  column_index : Nat
deriving DecidableEq, Repr

/-- Lexicographic `<` on positions (spec §3: "Ordering is lexicographic"). -/
def BufferPosition.lt (a b : BufferPosition) : Bool :=
  a.line_index < b.line_index ∨
    (a.line_index = b.line_index ∧ a.column_index < b.column_index)

/-- Lexicographic `≤` on positions. -/
def BufferPosition.le (a b : BufferPosition) : Bool :=
  a.lt b || a = b

/-- Modelled from the spec: `Range — {from: Position, to: Position}` (§3). -/
structure BufferRange where
  fromPos : BufferPosition
  toPos : BufferPosition
deriving DecidableEq, Repr

/-- Modelled from the spec: `between(a,b)` normalizes so that `from ≤ to`
(spec §3). -/
def BufferRange.between (a b : BufferPosition) : BufferRange :=
  if a.le b then ⟨a, b⟩ else ⟨b, a⟩

/-- Modelled from the spec (§4.A): addition of an insertion range `r` to a
position `p` shifts `p` if `r.from ≤ p`: if `r.from.line == p.line`, add the
column delta on the affected line; if the insertion spans lines,
`p.line += (r.to.line - r.from.line)` and if `p` was on `r.from.line` the
column is rebased onto `r.to`. (`src/buffer_position.rs` is not in the
sources.) -/
def BufferPosition.insert (p : BufferPosition) (r : BufferRange) : BufferPosition :=
  if ¬ r.fromPos.le p then p
  else if r.fromPos.line_index = r.toPos.line_index then
    if p.line_index = r.fromPos.line_index then
      ⟨p.line_index, p.column_index + (r.toPos.column_index - r.fromPos.column_index)⟩
    else p
  else if p.line_index = r.fromPos.line_index then
    ⟨p.line_index + (r.toPos.line_index - r.fromPos.line_index),
      r.toPos.column_index + (p.column_index - r.fromPos.column_index)⟩
  else
    ⟨p.line_index + (r.toPos.line_index - r.fromPos.line_index), p.column_index⟩

/-- Modelled from the spec (§4.A): deletion collapses positions inside the
deleted span to `r.from` and shifts later positions back by the complementary
rule. (`src/buffer_position.rs` is not in the sources.) -/
def BufferPosition.delete (p : BufferPosition) (r : BufferRange) : BufferPosition :=
  if p.lt r.fromPos then p
  else if p.le r.toPos then r.fromPos
  else if p.line_index = r.toPos.line_index then
    ⟨r.fromPos.line_index,
      r.fromPos.column_index + (p.column_index - r.toPos.column_index)⟩
  else
    ⟨p.line_index - (r.toPos.line_index - r.fromPos.line_index), p.column_index⟩

/-- Rust `EditKind` from `src/src/history.rs`. -/
inductive EditKind where
  | insert
  | delete
deriving DecidableEq, Repr

/-- Rust `Edit` from `src/src/history.rs`: the argument of `History::add_edit`. -/
structure Edit where
  kind : EditKind
  range : BufferRange
  text : ByteStr
  cursor_index : Nat
deriving DecidableEq, Repr

/-- Rust `EditInternal` from `src/src/history.rs`: the stored form of an edit,
whose `texts_range` is a byte range into the history's `texts` payload. -/
structure EditInternal where
  kind : EditKind
  buffer_range : BufferRange
  texts_start : Nat
  texts_end : Nat
  cursor_index : Nat
deriving DecidableEq, Repr

/-- Rust `HistoryState` from `src/src/history.rs`. -/
inductive HistoryState where
  | iterIndex (index : Nat)
  | insertGroup (start stop : Nat)
deriving DecidableEq, Repr

/-- A group range entry of `History::group_ranges` (a `Range<usize>`). -/
structure GroupRange where
  start : Nat
  stop : Nat
deriving DecidableEq, Repr

/-- Rust `History` from `src/src/history.rs`. -/
structure History where
  texts : ByteStr
  edits : List EditInternal
  group_ranges : List GroupRange
  state : HistoryState
deriving DecidableEq, Repr

/-- Rust `History::new`. -/
def History.new : History :=
  { texts := [], edits := [], group_ranges := [], state := .iterIndex 0 }

/-- Rust `EditInternal::as_edit_ref` (`src/src/history.rs`): resolve the stored
slice against `texts`. The slice `&texts[range]` is total here because the
ranges stored by `add_edit` always lie inside `texts`; out-of-range garbage
states resolve to a clipped slice. -/
def EditInternal.asEditRef (e : EditInternal) (texts : ByteStr) : Edit :=
  { kind := e.kind
    range := e.buffer_range
    text := (texts.drop e.texts_start).take (e.texts_end - e.texts_start)
    cursor_index := e.cursor_index }

/-- Rust `History::try_merge_with_last` (`src/src/history.rs`): offer `e` to the
last edit of the current group; the returned `Bool` is Rust's `append_edit`
(`true` means the caller appends `e` as a new `EditInternal`). String
slicing, `insert_str`, `drain` and `usize` subtraction can panic in the
source; those paths return `none`. -/
def History.tryMergeWithLast (h : History) (currentGroupLen : Nat) (e : Edit) :
    Option (History × Bool) :=
  if currentGroupLen = 0 then some (h, true)
  else
    match h.edits.getLast? with
    | none => none
    | some last =>
      if last.cursor_index ≠ e.cursor_index then some (h, true)
      else
        match last.kind, e.kind with
        | .insert, .insert =>
          if e.range.fromPos = last.buffer_range.toPos then
            let texts := h.texts ++ e.text
            let last :=
              { last with
                buffer_range := { last.buffer_range with toPos := e.range.toPos }
                texts_end := texts.length }
            some ({ h with texts := texts, edits := h.edits.dropLast ++ [last] }, false)
          else if e.range.fromPos = last.buffer_range.fromPos then
            match insertStr h.texts last.texts_start e.text with
            | none => none
            | some texts =>
              let last :=
                { last with
                  buffer_range :=
                    { last.buffer_range with
                      toPos := last.buffer_range.toPos.insert e.range }
                  texts_end := texts.length }
              some ({ h with texts := texts, edits := h.edits.dropLast ++ [last] }, false)
          else some (h, true)
        | .delete, .delete =>
          if e.range.fromPos = last.buffer_range.fromPos then
            let texts := h.texts ++ e.text
            let last :=
              { last with
                buffer_range :=
                  { last.buffer_range with
                    toPos := last.buffer_range.toPos.insert e.range }
                texts_end := texts.length }
            some ({ h with texts := texts, edits := h.edits.dropLast ++ [last] }, false)
          else if e.range.toPos = last.buffer_range.fromPos then
            match insertStr h.texts last.texts_start e.text with
            | none => none
            | some texts =>
              let last :=
                { last with
                  buffer_range := { last.buffer_range with fromPos := e.range.fromPos }
                  texts_end := texts.length }
              some ({ h with texts := texts, edits := h.edits.dropLast ++ [last] }, false)
          else some (h, true)
        | .insert, .delete =>
          if last.buffer_range.fromPos = e.range.fromPos ∧
              e.range.toPos.le last.buffer_range.toPos then
            match sliceGet h.texts last.texts_start (last.texts_start + e.text.length) with
            | none => none
            | some sl =>
              if e.text = sl then
                match drainRange h.texts last.texts_start
                    (last.texts_start + e.text.length) with
                | none => none
                | some (_, texts) =>
                  let last :=
                    { last with
                      buffer_range :=
                        { last.buffer_range with
                          toPos := last.buffer_range.toPos.delete e.range }
                      texts_end := texts.length }
                  some ({ h with texts := texts, edits := h.edits.dropLast ++ [last] }, false)
              else some (h, true)
          else if e.range.toPos = last.buffer_range.toPos ∧
              last.buffer_range.fromPos.le e.range.fromPos then
            if e.text.length ≤ last.texts_end then
              match sliceGet h.texts (last.texts_end - e.text.length) last.texts_end with
              | none => none
              | some sl =>
                if e.text = sl then
                  match truncateStr h.texts (last.texts_end - e.text.length) with
                  | none => none
                  | some texts =>
                    let last :=
                      { last with
                        buffer_range :=
                          { last.buffer_range with toPos := e.range.fromPos }
                        texts_end := texts.length }
                    some
                      ({ h with texts := texts, edits := h.edits.dropLast ++ [last] }, false)
                else some (h, true)
            else none
          else if e.range.fromPos = last.buffer_range.fromPos ∧
              last.buffer_range.toPos.le e.range.toPos then
            if last.texts_start ≤ last.texts_end then
              match sliceTo e.text (last.texts_end - last.texts_start),
                  sliceGet h.texts last.texts_start last.texts_end with
              | some s1, some s2 =>
                if s1 = s2 then
                  match truncateStr h.texts last.texts_start,
                      sliceFrom e.text (last.texts_end - last.texts_start) with
                  | some texts, some s3 =>
                    let texts := texts ++ s3
                    let last :=
                      { last with
                        kind := .delete
                        buffer_range :=
                          { fromPos := last.buffer_range.fromPos
                            toPos := e.range.toPos.delete last.buffer_range }
                        texts_end := texts.length }
                    some
                      ({ h with texts := texts, edits := h.edits.dropLast ++ [last] }, false)
                  | _, _ => none
                else some (h, true)
              | _, _ => none
            else none
          else if last.buffer_range.toPos = e.range.toPos ∧
              e.range.fromPos.le last.buffer_range.fromPos then
            if last.texts_start ≤ last.texts_end then
              match sliceFrom e.text (last.texts_end - last.texts_start),
                  sliceGet h.texts last.texts_start last.texts_end with
              | some s1, some s2 =>
                if s1 = s2 then
                  match truncateStr h.texts last.texts_start,
                      sliceTo e.text (last.texts_end - last.texts_start) with
                  | some texts, some s3 =>
                    let texts := texts ++ s3
                    let last :=
                      { last with
                        kind := .delete
                        buffer_range :=
                          { fromPos := e.range.fromPos
                            toPos := last.buffer_range.fromPos }
                        texts_end := texts.length }
                    some
                      ({ h with texts := texts, edits := h.edits.dropLast ++ [last] }, false)
                  | _, _ => none
                else some (h, true)
              | _, _ => none
            else none
          else some (h, true)
        | .delete, .insert => some (h, true)

/-- Rust `History::add_edit` (`src/src/history.rs`). In `IterIndex(i)` state the
redo tail of `edits` and `group_ranges` is truncated and a fresh empty
`InsertGroup` is opened; then the edit is offered to `try_merge_with_last`
and appended when no merge happened. -/
def History.addEdit (h : History) (e : Edit) : Option History :=
  let step : Option (History × Nat) :=
    match h.state with
    | .iterIndex index =>
      let editIndex :=
        match h.group_ranges.get? index with
        | some r => r.start
        | none => h.edits.length
      some
        ({ h with
            edits := h.edits.take editIndex
            state := .insertGroup editIndex editIndex
            group_ranges := h.group_ranges.take index }, 0)
    | .insertGroup s e' => if s ≤ e' then some (h, e' - s) else none
  match step with
  | none => none
  | some (h, currentGroupLen) =>
    match h.tryMergeWithLast currentGroupLen e with
    | none => none
    | some (h, false) => some h
    | some (h, true) =>
      let h :=
        match h.state with
        | .insertGroup s e' => { h with state := .insertGroup s (e' + 1) }
        | st => { h with state := st }
      let start := h.texts.length
      some
        { h with
          texts := h.texts ++ e.text
          edits :=
            h.edits ++
              [{ kind := e.kind
                 buffer_range := e.range
                 texts_start := start
                 texts_end := start + e.text.length
                 cursor_index := e.cursor_index }] }

/-- Rust `History::commit_edits` (`src/src/history.rs`). -/
def History.commitEdits (h : History) : History :=
  match h.state with
  | .insertGroup s e =>
    { h with
      group_ranges := h.group_ranges ++ [⟨s, e⟩]
      state := .iterIndex (h.group_ranges.length + 1) }
  | .iterIndex _ => h

/-- Flip an edit kind (`undo_edits` maps Insert↔Delete). -/
def EditKind.flip : EditKind → EditKind
  | .insert => .delete
  | .delete => .insert

/-- Rust `History::undo_edits` (`src/src/history.rs`): commit, step the iter index
back and return the group's edits reversed with kinds flipped. The returned
iterator is materialized as a list; indexing `group_ranges[index]` and the
`edits[range]` slice return `none` when out of bounds (a panic in the
source). After `commit_edits` the state is always `IterIndex`, so the
source's `unreachable!` arm cannot be taken; it is modelled as `none`. -/
def History.undoEdits (h : History) : Option (History × List Edit) :=
  let h := h.commitEdits
  match h.state with
  | .iterIndex index =>
    if index > 0 then
      match h.group_ranges.get? (index - 1) with
      | none => none
      | some r =>
        if r.start ≤ r.stop ∧ r.stop ≤ h.edits.length then
          some
            ({ h with state := .iterIndex (index - 1) },
              (((h.edits.drop r.start).take (r.stop - r.start)).reverse).map fun e =>
                let ed := e.asEditRef h.texts
                { ed with kind := ed.kind.flip })
        else none
    else some (h, [])
  | .insertGroup _ _ => none

/-- Rust `History::redo_edits` (`src/src/history.rs`): commit, return the group at
the iter index in forward order with kinds unchanged, and advance the index.
Out-of-bounds indexing is `none` (a panic in the source); the dead
`unreachable!` arm is `none`. -/
def History.redoEdits (h : History) : Option (History × List Edit) :=
  let h := h.commitEdits
  match h.state with
  | .iterIndex index =>
    if index < h.group_ranges.length then
      match h.group_ranges.get? index with
      | none => none
      | some r =>
        if r.start ≤ r.stop ∧ r.stop ≤ h.edits.length then
          some
            ({ h with state := .iterIndex (index + 1) },
              ((h.edits.drop r.start).take (r.stop - r.start)).map fun e =>
                e.asEditRef h.texts)
        else none
    else some (h, [])
  | .insertGroup _ _ => none

/-- A UTF-8 continuation byte. -/
def isContByte (b : Nat) : Bool := 0x80 ≤ b ∧ b < 0xC0

/-- Group the bytes of a UTF-8 string into its characters, the way Rust's
`str::chars()` walks it: each character is a boundary byte followed by its
continuation bytes. -/
def utf8CharGroups : ByteStr → List ByteStr
  | [] => []
  | b :: rest =>
    (b :: rest.takeWhile isContByte) :: utf8CharGroups (rest.dropWhile isContByte)
termination_by s => s.length
decreasing_by
  simp only [List.length_cons]
  exact Nat.lt_succ_of_le (List.Sublist.length_le (List.dropWhile_sublist _))

/-- Rust `Text` from `src/src/buffer.rs`: either a single character or a string.
A character is kept as its UTF-8 bytes. -/
inductive Text where
  | chr (c : ByteStr)
  | str (s : ByteStr)
deriving DecidableEq, Repr

/-- The byte content of a `Text` (`TextRef::Char(c)` holds the bytes of `c`).
-/
def Text.bytes : Text → ByteStr
  | .chr c => c
  | .str s => s

/-- Rust `Text::from_chars` (`src/src/buffer.rs`): a single char becomes
`Text::Char`, zero or at least two become `Text::String`. -/
def Text.fromChars (s : ByteStr) : Text :=
  match utf8CharGroups s with
  | [c] => .chr c
  | _ => .str s

/-- Rust `str::lines()` over bytes: split on `\n` (byte `10`), a trailing
newline producing no trailing empty line. (The `\r\n` handling of
`str::lines` is omitted; no input in this development contains a carriage
return.) -/
def rustLines (s : ByteStr) : List ByteStr :=
  if s = [] then []
  else
    let parts := s.splitOn 10
    if s.getLast? = some 10 then parts.dropLast else parts

/-- A `BufferContent` (`src/src/buffer.rs`): the `text` bytes of its
`BufferLine`s, newlines living only between lines. -/
abbrev BufferContent := List ByteStr

/-- Rust `BufferContent::clamp_position` (`src/src/buffer.rs`): clamp the line
index to `line_count - 1`, then clamp the column index to the *char count*
of that line. Indexing `self.lines[...]` panics when the line vector is
empty (`none`). -/
def clampPosition (lines : BufferContent) (p : BufferPosition) :
    Option BufferPosition :=
  let lineCount := lines.length
  let li := if p.line_index ≥ lineCount then lineCount - 1 else p.line_index
  match lines.get? li with
  | none => none
  | some line =>
    let cc := charCount line
    some ⟨li, if p.column_index > cc then cc else p.column_index⟩

/-- Rust `BufferContent::write` (`src/src/buffer.rs`): lines joined by `\n`, no
trailing newline. (The source indexes `lines[last_index]` and would panic on
an empty line vector; contents always hold at least one line.) -/
def writtenBytes (lines : BufferContent) : ByteStr :=
  List.intercalate [10] lines

/-- Rust `BufferContent::insert_text` (`src/src/buffer.rs`). The `lines.insert`
calls of the source, executed at `position.line_index + 1 .. + line_count`,
are modelled by splicing the new lines after `position.line_index` at once.
String `split_off`/`insert` panics are `none`. -/
def insertText (lines : BufferContent) (pos : BufferPosition) (text : Text) :
    Option (BufferRange × BufferContent) := do
  let pos ← clampPosition lines pos
  match text with
  | .chr c =>
    if c = [10] then do
      let line ← lines.get? pos.line_index
      let (kept, splitLine) ← splitOff line pos.column_index
      let lines := (lines.set pos.line_index kept).insertIdx (pos.line_index + 1) splitLine
      some (BufferRange.between pos ⟨pos.line_index + 1, 0⟩, lines)
    else do
      let line ← lines.get? pos.line_index
      let line ← insertStr line pos.column_index c
      some (BufferRange.between pos ⟨pos.line_index, pos.column_index + 1⟩,
        lines.set pos.line_index line)
  | .str t => do
    let line ← lines.get? pos.line_index
    let (kept, splitLine) ← splitOff line pos.column_index
    let lines := lines.set pos.line_index kept
    let (lines, lineCount) :=
      match rustLines t with
      | [] => (lines, 0)
      | first :: rest =>
        let lines := lines.set pos.line_index (kept ++ first)
        (lines.take (pos.line_index + 1) ++ rest ++ lines.drop (pos.line_index + 1),
          rest.length)
    if t.getLast? = some 10 then
      let lineCount := lineCount + 1
      let lines := lines.insertIdx (pos.line_index + lineCount) splitLine
      some (BufferRange.between pos ⟨pos.line_index + lineCount, 0⟩, lines)
    else do
      let line ← lines.get? pos.line_index
      let col := charCount line
      let lines := lines.set pos.line_index (line ++ splitLine)
      some (BufferRange.between pos ⟨pos.line_index + lineCount, col⟩, lines)

/-- Rust `BufferContent::from_str` (`src/src/buffer.rs`): start from a single
empty line and insert the text at the origin. -/
def fromStr (t : ByteStr) : Option BufferContent :=
  (insertText [[]] ⟨0, 0⟩ (.str t)).map (·.2)

/-- Rust `BufferContent::delete_range` (`src/src/buffer.rs`), including the
source's `if lines_range.start >= lines_range.end` guard in front of the
drain of the intermediate lines, taken verbatim. String/`Vec` drain and
slice panics are `none`. -/
def deleteRange (lines : BufferContent) (range : BufferRange) :
    Option (Text × BufferContent) := do
  let fromPos ← clampPosition lines range.fromPos
  let toPos ← clampPosition lines range.toPos
  if fromPos.line_index = toPos.line_index then do
    let line ← lines.get? fromPos.line_index
    let (removed, line) ← drainRange line fromPos.column_index toPos.column_index
    some (Text.fromChars removed, lines.set fromPos.line_index line)
  else do
    let fromLine ← lines.get? fromPos.line_index
    let (d1, fromLine) ← drainFrom fromLine fromPos.column_index
    let lines := lines.set fromPos.line_index fromLine
    let rs := fromPos.line_index + 1
    let re := toPos.line_index
    let (dmid, lines) ←
      if rs ≥ re then
        if rs ≤ re ∧ re ≤ lines.length then
          some (((lines.drop rs).take (re - rs)).foldl (· ++ ·) [],
            lines.take rs ++ lines.drop re)
        else none
      else some (([] : ByteStr), lines)
    let toLineIndex := fromPos.line_index + 1
    if toLineIndex < lines.length then do
      let toLine ← lines.get? toLineIndex
      let lines := lines.eraseIdx toLineIndex
      let tailPart ← sliceFrom toLine toPos.column_index
      let headPart ← sliceTo toLine toPos.column_index
      let line ← lines.get? fromPos.line_index
      let lines := lines.set fromPos.line_index (line ++ tailPart)
      some (Text.str (d1 ++ dmid ++ headPart), lines)
    else
      some (Text.str (d1 ++ dmid), lines)

/-- Rust `BufferContent::apply_edits` (`src/src/buffer.rs`), with the iterator
drained: each edit is applied in order, `Insert` through `insert_text` at
`range.from` and `Delete` through `delete_range`. -/
def applyEdits (lines : BufferContent) (edits : List Edit) :
    Option BufferContent :=
  edits.foldlM
    (fun lines e =>
      match e.kind with
      | .insert => (insertText lines e.range.fromPos (.str e.text)).map (·.2)
      | .delete => (deleteRange lines e.range).map (·.2))
    lines

/-- Rust `Buffer` from `src/src/buffer.rs`: content plus history. -/
structure Buffer where
  content : BufferContent
  history : History
deriving Repr

/-- Rust `Buffer::with_contents`. -/
def Buffer.withContents (c : BufferContent) : Buffer :=
  { content := c, history := History.new }

/-- Rust `Buffer::insert_text` (`src/src/buffer.rs`): edit the content, then
record the edit. Modelled from the spec: the source calls
`self.history.push_edit`, which is not among the sources (`history.rs`
provides `add_edit` taking a `cursor_index`); it is modelled as
`History::add_edit` with `cursor_index = 0`. -/
def Buffer.insertText (b : Buffer) (pos : BufferPosition) (text : Text) :
    Option (BufferRange × Buffer) := do
  let (range, content) ← Pepper.insertText b.content pos text
  let history ← b.history.addEdit
    { kind := .insert, range := range, text := text.bytes, cursor_index := 0 }
  some (range, { content := content, history := history })

/-- Rust `Buffer::delete_range` (`src/src/buffer.rs`): delete from the content and
record a `Delete` edit carrying the returned text. `push_edit` is modelled
as in `Buffer.insertText`. -/
def Buffer.deleteRange (b : Buffer) (range : BufferRange) : Option Buffer := do
  let (text, content) ← Pepper.deleteRange b.content range
  let history ← b.history.addEdit
    { kind := .delete, range := range, text := text.bytes, cursor_index := 0 }
  some { content := content, history := history }

/-- Rust `Buffer::undo` (`src/src/buffer.rs`): drain
`content.apply_edits(history.undo_edits())`. -/
def Buffer.undo (b : Buffer) : Option Buffer := do
  let (history, edits) ← b.history.undoEdits
  let content ← applyEdits b.content edits
  some { content := content, history := history }

/-- Rust `History::commit_edits` lifted to the buffer. -/
def Buffer.commit (b : Buffer) : Buffer :=
  { b with history := b.history.commitEdits }

/-- Rust `Picker` from `src/lib/picker.rs`, restricted to the data read and
written by `move_cursor`: the `filtered_entries` vector is abstracted to its
length (only `len()` and `is_empty()` are consulted) together with the
cursor. -/
structure Picker where
  filtered_len : Nat
  cursor : Nat
deriving DecidableEq, Repr

/-- Rust `Picker::move_cursor` (`src/lib/picker.rs`): wrap on the ends with a
one-step hysteresis, otherwise saturate at the nearest end. The `usize`
subtraction `end_index - self.cursor` is embedded as truncated `Nat`
subtraction; it cannot underflow while `cursor < filtered_len`, the
invariant maintained by the picker. -/
def Picker.moveCursor (p : Picker) (offset : Int) : Picker :=
  if p.filtered_len = 0 then p
  else
    let endIndex := p.filtered_len - 1
    if offset > 0 then
      let off := offset.toNat
      let (off, cursor) := if p.cursor = endIndex then (off - 1, 0) else (off, p.cursor)
      if off < endIndex - cursor then { p with cursor := cursor + off }
      else { p with cursor := endIndex }
    else if offset < 0 then
      let off := (-offset).toNat
      let (off, cursor) :=
        if p.cursor = 0 then (off - 1, endIndex) else (off, p.cursor)
      if off < cursor then { p with cursor := cursor - off }
      else { p with cursor := 0 }
    else p

/-- Rust `CommandTokenKind` from `src/lib/command.rs`. -/
inductive CommandTokenKind where
  | text
  | bang
  | unterminated
deriving DecidableEq, Repr

/-- Rust `char::is_ascii_whitespace`. -/
def isAsciiWhitespace (c : Char) : Bool :=
  c = ' ' ∨ c = '\t' ∨ c = '\n' ∨ c = '\r' ∨ c.toNat = 12

/-- The `next_token` helper of `CommandTokenIter::next`
(`src/lib/command.rs`). Command text is embedded as a list of characters;
the source's byte offsets coincide with character offsets on the ASCII
inputs of the claims. -/
def nextToken (rest : List Char) : Option (CommandTokenKind × List Char × List Char) :=
  let rest := rest.dropWhile fun c => isAsciiWhitespace c || c = '\\'
  match rest with
  | [] => none
  | c :: tail =>
    if c = '"' ∨ c = '\'' then
      match tail.findIdx? (· = c) with
      | some i => some (.text, tail.take i, tail.drop (i + 1))
      | none => some (.unterminated, tail, [])
    else if c = '[' then
      match tail.findIdx? (· = ']') with
      | some i => some (.text, tail.take i, tail.drop (i + 1))
      | none => some (.unterminated, tail, [])
    else if c = '!' then
      some (.bang, [c], tail)
    else
      match rest.findIdx? fun ch =>
          isAsciiWhitespace ch || ch = '!' || ch = '"' || ch = '\'' || ch = '[' with
      | some i => some (.text, rest.take i, rest.drop i)
      | none => some (.text, rest, [])

/-- Drain `CommandTokenIter` into a token list. Each `next_token` step
consumes at least one character, so `length + 1` steps of fuel always
suffice. -/
def tokenizeFuel : Nat → List Char → List (CommandTokenKind × List Char)
  | 0, _ => []
  | fuel + 1, s =>
    match nextToken s with
    | none => []
    | some (k, t, rest) => (k, t) :: tokenizeFuel fuel rest

/-- All tokens of a command line (`CommandTokenIter` drained). -/
def tokenize (s : List Char) : List (CommandTokenKind × List Char) :=
  tokenizeFuel (s.length + 1) s

/-- Rust `CommandParseError` from `src/lib/command.rs` (the payloads are the
offending tokens). -/
inductive CommandParseError where
  | invalidCommandName (s : List Char)
  | commandNotFound (s : List Char)
  | commandDoesNotAcceptBang (s : List Char)
  | unterminatedArgument (s : List Char)
  | invalidArgument (s : List Char)
  | tooFewArguments (s : List Char) (n : Nat)
  | tooManyArguments (s : List Char) (n : Nat)
deriving DecidableEq, Repr

/-- Rust `CommandSource` from `src/lib/command.rs`. -/
inductive CommandSource where
  | builtin (i : Nat)
deriving DecidableEq, Repr

/-- Rust `BuiltinCommand` from `src/lib/command.rs`, restricted to the fields
`parse` reads: the name aliases, whether a bang usage is present, and the
parameter list (kept as its parameter names; `parse` uses only its length).
-/
structure BuiltinCommand where
  names : List (List Char)
  bang_usage : Option (List Char)
  params : List (List Char)
deriving DecidableEq, Repr

/-- Rust `CommandManager::find_command` (`src/lib/command.rs`). -/
def findCommand (cmds : List BuiltinCommand) (name : List Char) : Option CommandSource :=
  match cmds.findIdx? fun c => c.names.contains name with
  | some i => some (.builtin i)
  | none => none

/-- Rust `PARAMETERS_CAPACITY` from `src/lib/command.rs`. -/
def PARAMETERS_CAPACITY : Nat := 8

/-- The argument-consuming loop of `CommandManager::parse`
(`src/lib/command.rs`): `Text` tokens fill `args` up to `param_count`,
a `Bang` or `Unterminated` token in argument position is an error. -/
def parseArgsLoop (paramCount : Nat) (args : List (List Char)) :
    List (CommandTokenKind × List Char) →
      Except CommandParseError (List (List Char))
  | [] => .ok args
  | (CommandTokenKind.text, s) :: rest =>
    if args.length = paramCount then .error (.tooManyArguments s paramCount)
    else parseArgsLoop paramCount (args ++ [s]) rest
  | (CommandTokenKind.bang, s) :: _ => .error (.invalidArgument s)
  | (CommandTokenKind.unterminated, s) :: _ => .error (.unterminatedArgument s)

/-- Rust `CommandManager::parse` (`src/lib/command.rs`): command name token, then
an optional bang token, command lookup, bang admissibility, then the
argument loop; too few collected arguments point at the last argument (or
the command name). The fixed `args: [&str; 8]` array is returned as a list
padded with empty strings to `PARAMETERS_CAPACITY`. -/
def parse (cmds : List BuiltinCommand) (text : List Char) :
    Except CommandParseError (CommandSource × Bool × List (List Char)) :=
  match tokenize text with
  | [] => .error (.invalidCommandName (text.dropWhile isAsciiWhitespace))
  | (CommandTokenKind.text, commandName) :: rest =>
    let (bang, rest) :=
      match rest with
      | (CommandTokenKind.bang, _) :: r => (true, r)
      | r => (false, r)
    match findCommand cmds commandName with
    | none => .error (.commandNotFound commandName)
    | some (.builtin i) =>
      let command := cmds.getD i ⟨[], none, []⟩
      if bang ∧ command.bang_usage = none then
        .error (.commandDoesNotAcceptBang commandName)
      else
        let paramCount := command.params.length
        match parseArgsLoop paramCount [] rest with
        | .error e => .error e
        | .ok args =>
          if args.length < paramCount then
            let token := if args.length > 0 then args.getLast! else commandName
            .error (.tooFewArguments token paramCount)
          else
            .ok (.builtin i, bang,
              args ++ List.replicate (PARAMETERS_CAPACITY - args.length) [])
  | (_, s) :: _ => .error (.invalidCommandName s)

/-- The command table of the claims: a command named `cmd0` with zero
parameters accepting a bang, and a command named `c` with three parameters
(mirroring `create_commands` in the tests of `src/lib/command.rs`). -/
def claimCommands : List BuiltinCommand :=
  [ { names := ["cmd0".toList], bang_usage := some [], params := [] },
    { names := ["command-name".toList, "c".toList], bang_usage := some []
      params := [[], [], []] } ]

/-- Rust `DeserializeError` from pepper's serialization module (declared by the
protocol sources; spec §4.J). -/
inductive DeserializeError where
  | insufficientData
  | invalidData
deriving DecidableEq, Repr

/-- Modelled from the spec (§4.J): the codec primitives live in
`pepper::serialization`, which is not among the sources. Integers are
fixed-endian; serialization of a `u16` as two bytes (low byte first). -/
def serializeU16 (n : Nat) : ByteStr :=
  [n % 256, n / 256 % 256]

/-- Modelled from the spec (§4.J): deserialization of a `u16`, the inverse
of `serializeU16`; an exhausted buffer is `InsufficientData`. -/
def deserializeU16 : ByteStr → Except DeserializeError (Nat × ByteStr)
  | b0 :: b1 :: rest => .ok (b0 % 256 + b1 % 256 * 256, rest)
  | _ => .error .insufficientData

/-- Modelled from the spec (§4.J): serialization of a `u32` as four bytes
(low byte first). -/
def serializeU32 (n : Nat) : ByteStr :=
  [n % 256, n / 256 % 256, n / 65536 % 256, n / 16777216 % 256]

/-- Modelled from the spec (§4.J): deserialization of a `u32`, the inverse
of `serializeU32`. -/
def deserializeU32 : ByteStr → Except DeserializeError (Nat × ByteStr)
  | b0 :: b1 :: b2 :: b3 :: rest =>
    .ok (b0 % 256 + b1 % 256 * 256 + b2 % 256 * 65536 + b3 % 256 * 16777216, rest)
  | _ => .error .insufficientData

/-- Modelled from the spec (§4.J): `Deserializer::read(n)` hands out the
next `n` bytes, or `InsufficientData`. -/
def readBytes (n : Nat) (s : ByteStr) : Except DeserializeError (ByteStr × ByteStr) :=
  if n ≤ s.length then .ok (s.take n, s.drop n) else .error .insufficientData

/-- Rust `RemedybgId::deserialize` (`src/plugin-remedybg/src/protocol.rs`): a
`u32` id where `0` is `InvalidData`. -/
def RemedybgId.deserialize (s : ByteStr) : Except DeserializeError (Nat × ByteStr) := do
  let (id, rest) ← deserializeU32 s
  match id with
  | 0 => .error .invalidData
  | id => .ok (id, rest)

/-- Rust `deserialize_remedybg_bytes` / `RemedybgStr::deserialize`
(`src/plugin-remedybg/src/protocol.rs`): a `u16` length followed by that
many bytes. -/
def deserializeRemedybgBytes (s : ByteStr) :
    Except DeserializeError (ByteStr × ByteStr) := do
  let (len, rest) ← deserializeU16 s
  readBytes len rest

/-- Rust `RemedybgSourceLocationChangedReason::deserialize`
(`src/plugin-remedybg/src/protocol.rs`): a `u16` discriminant in `0..=12`,
kept as the raw discriminant. -/
def deserializeSourceLocationChangedReason (s : ByteStr) :
    Except DeserializeError (Nat × ByteStr) := do
  let (d, rest) ← deserializeU16 s
  if d ≤ 12 then .ok (d, rest) else .error .invalidData

/-- Rust `RemedybgEvent` from `src/plugin-remedybg/src/protocol.rs` (string
payloads kept as their bytes, ids as their `u32` value). -/
inductive RemedybgEvent where
  | exitProcess (exit_code : Nat)
  | sourceLocationChanged (filename : ByteStr) (line_num : Nat) (reason : Nat)
  | breakpointHit (breakpoint_id : Nat)
  | breakpointResolved (breakpoint_id : Nat)
  | breakpointAdded (breakpoint_id : Nat)
  | breakpointModified (breakpoint_id : Nat)
  | breakpointRemoved (breakpoint_id : Nat)
  | outputDebugString (string : ByteStr)
deriving DecidableEq, Repr

/-- Rust `RemedybgEvent::deserialize` (`src/plugin-remedybg/src/protocol.rs`): a
`u16` discriminant selects the variant; unknown discriminants are
`InvalidData`. -/
def RemedybgEvent.deserialize (s : ByteStr) :
    Except DeserializeError (RemedybgEvent × ByteStr) := do
  let (discriminant, s) ← deserializeU16 s
  match discriminant with
  | 100 => do
    let (exit_code, s) ← deserializeU32 s
    .ok (.exitProcess exit_code, s)
  | 200 => do
    let (filename, s) ← deserializeRemedybgBytes s
    let (line_num, s) ← deserializeU32 s
    let (reason, s) ← deserializeSourceLocationChangedReason s
    .ok (.sourceLocationChanged filename line_num reason, s)
  | 600 => do
    let (id, s) ← RemedybgId.deserialize s
    .ok (.breakpointHit id, s)
  | 601 => do
    let (id, s) ← RemedybgId.deserialize s
    .ok (.breakpointResolved id, s)
  | 602 => do
    let (id, s) ← RemedybgId.deserialize s
    .ok (.breakpointAdded id, s)
  | 603 => do
    let (id, s) ← RemedybgId.deserialize s
    .ok (.breakpointModified id, s)
  | 604 => do
    let (id, s) ← RemedybgId.deserialize s
    .ok (.breakpointRemoved id, s)
  | 800 => do
    let (string, s) ← deserializeRemedybgBytes s
    .ok (.outputDebugString string, s)
  | _ => .error .invalidData

/-- Modelled from the spec (§6, §4.J): no serializer for `RemedybgEvent` is
among the sources; the wire shape is `[u16 discriminant][payload]` with
`BreakpointHit = 600` and the breakpoint id a `u32`
(`RemedybgId::serialize` forwards to `u32` serialization). -/
def serializeBreakpointHit (id : Nat) : ByteStr :=
  serializeU16 600 ++ serializeU32 id

/-- Rust `IniErrorKind` from `src/src/ini.rs`. -/
inductive IniErrorKind where
  | expectedSection
  | expectedEquals
  | expectedCloseSquareBrackets
  | sectionNotEndedWithCloseSquareBrackets
  | emptySectionName
  | emptyPropertyName
deriving DecidableEq, Repr

/-- Rust `IniError` from `src/src/ini.rs`. -/
structure IniError where
  kind : IniErrorKind
  position : BufferPosition
deriving DecidableEq, Repr

/-- The accumulating state of `Ini::parse` (`src/src/ini.rs`): the
`sections` vector (name and `properties` index range) and the `properties`
vector (key/value pairs). -/
structure IniState where
  sections : List (List Char × GroupRange)
  properties : List (List Char × List Char)
deriving DecidableEq, Repr

/-- The `section.properties.end` fix-up applied to the most recent section
(`Ini::parse` does this when a new section opens and once at the end). -/
def IniState.setLastSectionEnd (st : IniState) (stop : Nat) : IniState :=
  match st.sections.getLast? with
  | none => st
  | some (name, r) =>
    { st with sections := st.sections.dropLast ++ [(name, { r with stop := stop })] }

/-- One line of `Ini::parse` (`src/src/ini.rs`): blank and `;` lines are
skipped; `[`-lines open a section (with the bracket diagnostics of the
source); other lines are properties — they require a prior section, split
at the first `=` into key (before it) and value (the entire remainder), and
a missing `=` or an empty key is an error. `i` is the zero-based line
number. -/
def iniParseStep (st : IniState) (i : Nat) (line : List Char) :
    Except IniError IniState :=
  if line = [] ∨ line.head? = some ';' then .ok st
  else if line.head? = some '[' then
    let rest := line.tail
    match rest.findIdx? (· = ']') with
    | some 0 => .error ⟨.emptySectionName, ⟨i, 1⟩⟩
    | some j =>
      let name := rest.take j
      if (rest.drop j).length > 1 then
        .error ⟨.sectionNotEndedWithCloseSquareBrackets, ⟨i, j + 1⟩⟩
      else
        let start := st.properties.length
        let st := st.setLastSectionEnd start
        .ok { st with sections := st.sections ++ [(name, ⟨start, start⟩)] }
    | none => .error ⟨.expectedCloseSquareBrackets, ⟨i, rest.length + 1⟩⟩
  else if st.sections = [] then .error ⟨.expectedSection, ⟨i, 0⟩⟩
  else
    match line.findIdx? (· = '=') with
    | some 0 => .error ⟨.emptyPropertyName, ⟨i, 0⟩⟩
    | some j =>
      .ok { st with properties := st.properties ++ [(line.take j, line.drop (j + 1))] }
    | none => .error ⟨.expectedEquals, ⟨i, line.length⟩⟩

/-- Rust `str::lines()` over characters (see `rustLines`). -/
def charLines (s : List Char) : List (List Char) :=
  if s = [] then []
  else
    let parts := s.splitOn '\n'
    if s.getLast? = some '\n' then parts.dropLast else parts

/-- Rust `Ini::parse` (`src/src/ini.rs`): fold `iniParseStep` over the numbered
lines, then fix up the last section's property range end. -/
def iniParse (st : IniState) (text : List Char) : Except IniError IniState := do
  let st ← (charLines text).enum.foldlM (fun st p => iniParseStep st p.1 p.2) st
  .ok (st.setLastSectionEnd st.properties.length)

/-- The clamping claimed for `BufferContent::clamp_position`: line clamped to
`line_count - 1`, column clamped to the *byte length* of the line and then
rounded down to the nearest UTF-8 char boundary. Stated from the claim's
words, for comparison with the source's `clampPosition`. -/
def floorCharBoundary (s : ByteStr) (i : Nat) : Nat :=
  (((List.range (i + 1)).filter fun j => isCharBoundary s j).getLast?).getD 0

/-- See `floorCharBoundary`: the whole clamp as the claim describes it. -/
def clampPositionClaimed (lines : BufferContent) (p : BufferPosition) :
    Option BufferPosition :=
  let li := min p.line_index (lines.length - 1)
  match lines.get? li with
  | none => none
  | some line =>
    some ⟨li, floorCharBoundary line (min p.column_index line.length)⟩

/-- Well-formedness of a history for the merge path of `add_edit`: in
`InsertGroup` state the group range ends at `edits.len()` and, when the
group is non-empty, the last edit's `texts_range` reaches exactly to the end
of `texts` and starts inside it on a char boundary. Histories built by
`add_edit`/`commit_edits` satisfy this. -/
def History.MergeWf (h : History) : Prop :=
  match h.state with
  | .iterIndex _ => True
  | .insertGroup s e =>
    s ≤ e ∧ e = h.edits.length ∧
      (s < e → ∀ last ∈ h.edits.getLast?,
        last.texts_start ≤ h.texts.length ∧
        last.texts_end = h.texts.length ∧
        isCharBoundary h.texts last.texts_start)

/-- The last edit of the current insert group, when the state is
`InsertGroup` with a non-empty range: the edit `try_merge_with_last` would
try to merge into. -/
def History.lastGroupEdit (h : History) : Option EditInternal :=
  match h.state with
  | .insertGroup s e => if s < e then h.edits.getLast? else none
  | .iterIndex _ => none

/-- The edit index `add_edit` truncates to in `IterIndex(i)` state:
`group_ranges[i].start` when the group exists, else `edits.len()`. -/
def History.editIndexAt (h : History) (i : Nat) : Nat :=
  match h.group_ranges.get? i with
  | some r => r.start
  | none => h.edits.length

end Pepper

namespace Pepper

/-- Helper: `add_edit` from `IterIndex(i)` state truncates the redo tail,
opens a fresh group and appends the edit. -/
theorem addEdit_iterIndex (h : History) (i : Nat) (e : Edit)
    (hs : h.state = .iterIndex i) :
    h.addEdit e = some
      { texts := h.texts ++ e.text
        edits := h.edits.take (h.editIndexAt i) ++
          [{ kind := e.kind, buffer_range := e.range
             texts_start := h.texts.length
             texts_end := h.texts.length + e.text.length
             cursor_index := e.cursor_index }]
        group_ranges := h.group_ranges.take i
        state := .insertGroup (h.editIndexAt i) (h.editIndexAt i + 1) } := by
  simp only [History.addEdit, History.tryMergeWithLast, hs, if_true, History.editIndexAt]

/-- Helper: `add_edit` of an `Insert` abutting the single `Insert` of the
current group merges in place: the stored edit's range end and texts slice
grow, nothing is appended. -/
theorem addEdit_merge_abutting_insert (h : History) (k : Nat)
    (xs : List EditInternal) (ei1 : EditInternal) (e : Edit)
    (hs : h.state = .insertGroup k (k + 1)) (hed : h.edits = xs ++ [ei1])
    (hk1 : ei1.kind = .insert) (hk2 : e.kind = .insert)
    (hcur : ei1.cursor_index = e.cursor_index)
    (habut : e.range.fromPos = ei1.buffer_range.toPos) :
    h.addEdit e = some
      { h with
        texts := h.texts ++ e.text
        edits := xs ++
          [{ ei1 with
             buffer_range := { ei1.buffer_range with toPos := e.range.toPos }
             texts_end := (h.texts ++ e.text).length }] } := by
  simp only [History.addEdit, History.tryMergeWithLast, hs, hed, hk1, hk2, hcur, habut,
    if_pos (Nat.le_succ k), Nat.add_sub_cancel_left, List.getLast?_concat,
    List.dropLast_concat]
  simp

/-- C1. The claim: applying a sequence of edits to a `Buffer` and then
undoing restores the original written bytes. The code violates it: deleting
the range `(0,0)..(1,0)` from the two-line content `"a\nb"` records the
deleted text as `"a"` (the newline is never pushed into the deleted text),
so the undo inserts `"a"` at the origin of `"b"` and yields `"ab"`, not the
original `"a\nb"`. -/
theorem undo_after_delete_does_not_restore :
    ((((Buffer.withContents [[97], [98]]).deleteRange
          ⟨⟨0, 0⟩, ⟨1, 0⟩⟩).bind fun b => b.commit.undo).map
        fun b => writtenBytes b.content) = some [97, 98] ∧
      writtenBytes [[97], [98]] = [97, 10, 98] ∧
      [97, 98] ≠ [97, 10, 98] := by
  refine ⟨by rfl, by rfl, by decide⟩

/-- C2. The claim: a multi-line `delete_range` removes the suffix of the
from-line, all intermediate lines, merges the to-line suffix up, and returns
exactly the removed text. The code violates it at content `"a\nb\nc"` with
range `(0,0)..(2,1)`: the inverted guard `lines_range.start >= lines_range.end`
skips draining the intermediate line `"b"`, the line removed at
`from.line + 1` is `"b"` rather than the to-line, and the returned text
`"ab"` contains no newlines — the code leaves `"\nc"` and returns `"ab"`
where the claim demands the remaining content `""` and the removed text
`"a\nb\nc"`. -/
theorem delete_range_multiline_divergence :
    deleteRange [[97], [98], [99]] ⟨⟨0, 0⟩, ⟨2, 1⟩⟩ =
        some (Text.str [97, 98], [[], [99]]) ∧
      ([], [99]) ≠ (([] : ByteStr), ([] : ByteStr)) ∧
      [97, 98] ≠ [97, 10, 98, 10, 99] := by
  refine ⟨by rfl, by decide, by decide⟩

/-- C7. Against the table with `cmd0` (zero parameters, bang accepted) and
`c` (three parameters): `"  cmd0!  "` parses to `cmd0` with bang and no
arguments, `"c  [aaa][bbb]ccc  "` parses with arguments
`["aaa","bbb","ccc"]`, and `"c 0 1 'abc"` fails with
`UnterminatedArgument("abc")`. -/
theorem parse_concrete_scenarios :
    parse claimCommands "  cmd0!  ".toList =
        .ok (.builtin 0, true, List.replicate 8 []) ∧
      parse claimCommands "c  [aaa][bbb]ccc  ".toList =
        .ok (.builtin 1, false,
          ["aaa".toList, "bbb".toList, "ccc".toList, [], [], [], [], []]) ∧
      parse claimCommands "c 0 1 'abc".toList =
        .error (.unterminatedArgument "abc".toList) := by
  refine ⟨by rfl, by rfl, by rfl⟩

/-- C9. Serializing `RemedybgEvent::BreakpointHit { id: 7 }` (the `u16`
discriminant 600 followed by the `u32` id) and deserializing yields the same
variant with nothing left over; deserializing an id field of `0` fails with
`InvalidData`. -/
theorem breakpoint_hit_roundtrip_and_zero_id :
    RemedybgEvent.deserialize (serializeBreakpointHit 7) =
        .ok (.breakpointHit 7, []) ∧
      RemedybgId.deserialize (serializeU32 0) = .error .invalidData := by
  refine ⟨by rfl, by rfl⟩

/-- C4, counterexample. The claim says `add_edit` is total for arbitrary
edit values. It is not: after inserting text `"a"` over range
`(0,0)..(0,3)`, offering a `Delete` with range `(0,0)..(0,2)` and text
`"xy"` enters the first cross-kind merge branch, whose slice
`texts[start .. start + edit.text.len()]` asks for `texts[0..2]` of the
one-byte `texts` — out of bounds, a panic in the source. -/
theorem add_edit_slices_out_of_bounds :
    ((History.new.addEdit
          { kind := .insert, range := ⟨⟨0, 0⟩, ⟨0, 3⟩⟩, text := [97]
            cursor_index := 0 }).bind fun h =>
        h.addEdit
          { kind := .delete, range := ⟨⟨0, 0⟩, ⟨0, 2⟩⟩, text := [120, 121]
            cursor_index := 0 }) = none := by
  rfl

/-- C6, counterexample. The claim says the column is clamped to
`min(column, byte length)` rounded down to a char boundary. On the one-line
content `"é"` (bytes `C3 A9`) at position `(0,2)` the claimed clamp keeps
column `2` (the byte length, a boundary), but `clamp_position` clamps to the
*char count* `1`. -/
theorem clamp_position_is_not_byte_clamp :
    clampPosition [[195, 169]] ⟨0, 2⟩ = some ⟨0, 1⟩ ∧
      clampPositionClaimed [[195, 169]] ⟨0, 2⟩ = some ⟨0, 2⟩ ∧
      clampPosition [[195, 169]] ⟨0, 2⟩ ≠ clampPositionClaimed [[195, 169]] ⟨0, 2⟩ := by
  refine ⟨by rfl, by rfl, by decide⟩

/-- C8, counterexample. The claim says `move_cursor(n)` then
`move_cursor(-n)` is the identity on a non-empty filtered list for every
`n ≥ 0`. With 3 filtered entries and the cursor at 1, `move_cursor(2)`
saturates at the end (index 2) and `move_cursor(-2)` then saturates at 0,
not 1. -/
theorem move_cursor_roundtrip_fails :
    (Picker.moveCursor (Picker.moveCursor ⟨3, 1⟩ 2) (-2)) = ⟨3, 0⟩ ∧
      (⟨3, 0⟩ : Picker) ≠ ⟨3, 1⟩ := by
  refine ⟨by rfl, by decide⟩

/-- C3. Two `Insert` edits added to the same (fresh) undo group, with equal
`cursor_index` and the second starting where the first ended, leave the
group holding exactly one stored edit (`InsertGroup s (s+1)`), whose
resolved form spans from the first edit's `from` to the second edit's `to`
and whose text is the concatenation of the two texts. -/
theorem abutting_inserts_coalesce (h : History) (i : Nat) (e1 e2 : Edit)
    (hs : h.state = .iterIndex i)
    (hk1 : e1.kind = .insert) (hk2 : e2.kind = .insert)
    (hcur : e2.cursor_index = e1.cursor_index)
    (habut : e2.range.fromPos = e1.range.toPos) :
    ∃ h1 h2,
      h.addEdit e1 = some h1 ∧ h1.addEdit e2 = some h2 ∧
      (∃ s, h2.state = .insertGroup s (s + 1)) ∧
      ∃ ei, h2.edits.getLast? = some ei ∧
        ei.asEditRef h2.texts =
          { kind := .insert, range := ⟨e1.range.fromPos, e2.range.toPos⟩
            text := e1.text ++ e2.text, cursor_index := e1.cursor_index } := by
  have h1eq := addEdit_iterIndex h i e1 hs
  have h2eq := addEdit_merge_abutting_insert
    { texts := h.texts ++ e1.text
      edits := h.edits.take (h.editIndexAt i) ++
        [{ kind := e1.kind, buffer_range := e1.range
           texts_start := h.texts.length
           texts_end := h.texts.length + e1.text.length
           cursor_index := e1.cursor_index }]
      group_ranges := h.group_ranges.take i
      state := .insertGroup (h.editIndexAt i) (h.editIndexAt i + 1) }
    (h.editIndexAt i)
    (h.edits.take (h.editIndexAt i))
    { kind := e1.kind, buffer_range := e1.range
      texts_start := h.texts.length
      texts_end := h.texts.length + e1.text.length
      cursor_index := e1.cursor_index }
    e2 rfl rfl hk1 hk2 hcur.symm habut
  refine ⟨_, _, h1eq, h2eq, ⟨h.editIndexAt i, rfl⟩, _, List.getLast?_concat _, ?_⟩
  simp only [EditInternal.asEditRef, hk1, List.append_assoc, List.drop_left,
    List.length_append, Nat.add_sub_cancel_left, List.take_append, List.take_length]

/-- C3, witness: the coalescing theorem applied to a fresh history and the
two concrete abutting inserts `"a"` at `(0,0)..(0,1)` and `"b"` at
`(0,1)..(0,2)`. -/
theorem abutting_inserts_coalesce_witness :
    ∃ h1 h2,
      History.new.addEdit
          { kind := .insert, range := ⟨⟨0, 0⟩, ⟨0, 1⟩⟩, text := [97]
            cursor_index := 0 } = some h1 ∧
      h1.addEdit
          { kind := .insert, range := ⟨⟨0, 1⟩, ⟨0, 2⟩⟩, text := [98]
            cursor_index := 0 } = some h2 ∧
      (∃ s, h2.state = .insertGroup s (s + 1)) ∧
      ∃ ei, h2.edits.getLast? = some ei ∧
        ei.asEditRef h2.texts =
          { kind := .insert, range := ⟨⟨0, 0⟩, ⟨0, 2⟩⟩
            text := [97] ++ [98], cursor_index := 0 } :=
  abutting_inserts_coalesce History.new 0
    { kind := .insert, range := ⟨⟨0, 0⟩, ⟨0, 1⟩⟩, text := [97], cursor_index := 0 }
    { kind := .insert, range := ⟨⟨0, 1⟩, ⟨0, 2⟩⟩, text := [98], cursor_index := 0 }
    rfl rfl rfl rfl rfl

/-- C4, amended. `add_edit` returns a value whenever the offered edit does
not land in a cross-kind (previous `Insert`, new `Delete`, same
`cursor_index`) merge branch of `try_merge_with_last`, provided the history
state is well formed; in the cross-kind branches the computed string indices
can leave `texts` (see the counterexample), so totality for arbitrary edit
values fails. -/
theorem add_edit_total_without_cross_kind_merge (h : History) (e : Edit)
    (hwf : h.MergeWf)
    (hck : ∀ last ∈ h.lastGroupEdit,
      ¬(last.cursor_index = e.cursor_index ∧ last.kind = .insert ∧
        e.kind = .delete)) :
    ∃ h', h.addEdit e = some h' := by
  cases hstate : h.state with
  | iterIndex i => exact ⟨_, addEdit_iterIndex h i e hstate⟩
  | insertGroup s t =>
    have hwf' : s ≤ t ∧ t = h.edits.length ∧
        (s < t → ∀ last ∈ h.edits.getLast?,
          last.texts_start ≤ h.texts.length ∧
          last.texts_end = h.texts.length ∧
          isCharBoundary h.texts last.texts_start) := by
      unfold History.MergeWf at hwf
      rw [hstate] at hwf
      exact hwf
    obtain ⟨hst, hlen, hlast⟩ := hwf'
    simp only [History.addEdit, hstate, if_pos hst]
    by_cases hg : t - s = 0
    · simp only [History.tryMergeWithLast, hg, if_true]
      exact ⟨_, rfl⟩
    · have hslt : s < t := by omega
      have hpos : 0 < h.edits.length := by omega
      obtain ⟨last, hlq⟩ : ∃ last, h.edits.getLast? = some last :=
        Option.isSome_iff_exists.mp (List.getLast?_isSome.mpr (List.length_pos.mp hpos))
      have hmem : last ∈ h.lastGroupEdit := by
        rw [History.lastGroupEdit, hstate]
        simp [if_pos hslt, hlq, Option.mem_def]
      have hckl := hck last hmem
      obtain ⟨hb1, hb2, hb3⟩ := hlast hslt last (by rw [hlq]; rfl)
      have hins : insertStr h.texts last.texts_start e.text =
          some (h.texts.take last.texts_start ++ e.text ++
            h.texts.drop last.texts_start) := by
        rw [insertStr, if_pos ⟨hb1, hb3⟩]
      simp only [History.tryMergeWithLast, hlq]
      rw [if_neg hg]
      by_cases hcur : last.cursor_index ≠ e.cursor_index
      · rw [if_pos hcur]
        dsimp only []
        exact ⟨_, rfl⟩
      · rw [if_neg hcur]
        push_neg at hcur
        cases hlk : last.kind with
        | insert =>
          cases hek : e.kind with
          | insert =>
            dsimp only []
            by_cases hc1 : e.range.fromPos = last.buffer_range.toPos
            · rw [if_pos hc1]; exact ⟨_, rfl⟩
            · rw [if_neg hc1]
              by_cases hc2 : e.range.fromPos = last.buffer_range.fromPos
              · rw [if_pos hc2, hins]; exact ⟨_, rfl⟩
              · rw [if_neg hc2]; exact ⟨_, rfl⟩
          | delete => exact absurd ⟨hcur, hlk, hek⟩ hckl
        | delete =>
          cases hek : e.kind with
          | insert =>
            dsimp only []
            exact ⟨_, rfl⟩
          | delete =>
            dsimp only []
            by_cases hc1 : e.range.fromPos = last.buffer_range.fromPos
            · rw [if_pos hc1]; exact ⟨_, rfl⟩
            · rw [if_neg hc1]
              by_cases hc2 : e.range.toPos = last.buffer_range.fromPos
              · rw [if_pos hc2, hins]; exact ⟨_, rfl⟩
              · rw [if_neg hc2]; exact ⟨_, rfl⟩

/-- C4, witness: the totality theorem applied to the fresh history and an
`Insert` edit. -/
theorem add_edit_total_witness :
    ∃ h', History.new.addEdit
      { kind := .insert, range := ⟨⟨0, 0⟩, ⟨0, 1⟩⟩, text := [97]
        cursor_index := 0 } = some h' :=
  add_edit_total_without_cross_kind_merge History.new
    { kind := .insert, range := ⟨⟨0, 0⟩, ⟨0, 1⟩⟩, text := [97], cursor_index := 0 }
    trivial (by intro last hl; simp [History.lastGroupEdit, History.new] at hl)

/-- C5. Calling `add_edit` in `IterIndex(i)` state discards the redo stack:
the groups `group_ranges[i..]` are removed, the edits from the start of the
first removed group on are removed (the new edit is appended after the kept
prefix), and once the new group is committed `redo_edits` yields no edits. -/
theorem add_edit_discards_redo (h : History) (i : Nat) (e : Edit)
    (hs : h.state = .iterIndex i) :
    ∃ h',
      h.addEdit e = some h' ∧
      h'.group_ranges = h.group_ranges.take i ∧
      h'.edits = h.edits.take
          (match h.group_ranges.get? i with
            | some r => r.start
            | none => h.edits.length) ++
        [{ kind := e.kind, buffer_range := e.range
           texts_start := h.texts.length
           texts_end := h.texts.length + e.text.length
           cursor_index := e.cursor_index }] ∧
      h'.commitEdits.redoEdits = some (h'.commitEdits, []) := by
  refine ⟨{ texts := h.texts ++ e.text,
            edits := h.edits.take (match h.group_ranges.get? i with
              | some r => r.start | none => h.edits.length) ++
              [{ kind := e.kind, buffer_range := e.range
                 texts_start := h.texts.length
                 texts_end := h.texts.length + e.text.length
                 cursor_index := e.cursor_index }],
            group_ranges := h.group_ranges.take i,
            state := .insertGroup (match h.group_ranges.get? i with
              | some r => r.start | none => h.edits.length)
              ((match h.group_ranges.get? i with
                | some r => r.start | none => h.edits.length) + 1) },
          ?_, rfl, rfl, ?_⟩
  · simp only [History.addEdit, History.tryMergeWithLast, hs, if_true]
  · simp only [History.commitEdits, History.redoEdits, List.length_append,
      List.length_singleton, lt_irrefl, if_false]

/-- C5, witness: the redo-discard theorem applied to a concrete history
holding one committed group with its iter index rewound to 0 (the state
after one undo), and a fresh insert. -/
theorem add_edit_discards_redo_witness :
    ∃ h',
      History.addEdit
          { texts := [97]
            edits := [{ kind := .insert, buffer_range := ⟨⟨0, 0⟩, ⟨0, 1⟩⟩
                        texts_start := 0, texts_end := 1, cursor_index := 0 }]
            group_ranges := [⟨0, 1⟩]
            state := .iterIndex 0 }
          { kind := .insert, range := ⟨⟨0, 0⟩, ⟨0, 1⟩⟩, text := [98]
            cursor_index := 0 } = some h' ∧
      h'.group_ranges = [] ∧
      h'.edits =
        [{ kind := EditKind.insert, buffer_range := ⟨⟨0, 0⟩, ⟨0, 1⟩⟩
           texts_start := 1, texts_end := 2, cursor_index := 0 }] ∧
      h'.commitEdits.redoEdits = some (h'.commitEdits, []) := by
  obtain ⟨h', h1, h2, h3, h4⟩ := add_edit_discards_redo
    { texts := [97]
      edits := [{ kind := .insert, buffer_range := ⟨⟨0, 0⟩, ⟨0, 1⟩⟩
                  texts_start := 0, texts_end := 1, cursor_index := 0 }]
      group_ranges := [⟨0, 1⟩]
      state := .iterIndex 0 }
    0
    { kind := .insert, range := ⟨⟨0, 0⟩, ⟨0, 1⟩⟩, text := [98], cursor_index := 0 }
    rfl
  exact ⟨h', h1, h2, h3, h4⟩

/-- C6, amended. `clamp_position` sets the line to
`min(line, line_count - 1)` and the column to `min(column, char count of the
clamped line)` — the char count, not the byte length rounded to a boundary.
-/
theorem clamp_position_clamps_to_char_count (lines : BufferContent)
    (p : BufferPosition) (hne : lines ≠ []) :
    clampPosition lines p =
      some ⟨min p.line_index (lines.length - 1),
        min p.column_index
          (charCount (lines.getD (min p.line_index (lines.length - 1)) []))⟩ := by
  have hlen : 0 < lines.length := List.length_pos.mpr hne
  have hli : (if p.line_index ≥ lines.length then lines.length - 1 else p.line_index)
      = min p.line_index (lines.length - 1) := by
    split <;> omega
  have hlt : min p.line_index (lines.length - 1) < lines.length := by omega
  simp only [clampPosition]
  rw [hli]
  rw [List.get?_eq_get hlt]
  simp only [Option.some.injEq]
  have hgd : lines.getD (min p.line_index (lines.length - 1)) [] =
      lines.get ⟨_, hlt⟩ := by
    rw [List.getD_eq_getElem?_getD, List.getElem?_eq_getElem hlt]
    rfl
  rw [hgd]
  congr 1
  split <;> omega

/-- C6, amended, witness: the clamp theorem applied to the one-line content
`"ab"` and the out-of-range position `(5,7)`. -/
theorem clamp_position_clamps_to_char_count_witness :
    clampPosition [[97, 98]] ⟨5, 7⟩ =
      some ⟨min 5 ([[97, 98]].length - 1),
        min 7 (charCount ([[97, 98]].getD (min 5 ([[97, 98]].length - 1)) []))⟩ :=
  clamp_position_clamps_to_char_count [[97, 98]] ⟨5, 7⟩ (by decide)

/-- C8, amended. `move_cursor(n); move_cursor(-n)` is the identity on a
non-empty filtered list whenever the forward move does not clamp, i.e.
`cursor + n ≤ len - 1`; for larger `n` the saturation at the last entry
loses the original cursor (see the counterexample). -/
theorem move_cursor_roundtrip_without_clamp (len c n : Nat)
    (hlen : 0 < len) (hc : c < len) (hn : c + n ≤ len - 1) :
    Picker.moveCursor (Picker.moveCursor ⟨len, c⟩ (n : Int)) (-(n : Int)) =
      ⟨len, c⟩ := by
  rcases Nat.eq_zero_or_pos n with rfl | hnpos
  · simp [Picker.moveCursor, hlen.ne']
  · have h1 : Picker.moveCursor ⟨len, c⟩ (n : Int) = ⟨len, c + n⟩ := by
      simp only [Picker.moveCursor]
      rw [if_neg (by omega), if_pos (by exact_mod_cast hnpos),
        if_neg (show ¬ c = len - 1 by omega)]
      simp only [Int.toNat_natCast]
      by_cases hlt : n < len - 1 - c
      · rw [if_pos hlt]
      · rw [if_neg hlt]
        simp only [Picker.mk.injEq, true_and]
        omega
    rw [h1]
    simp only [Picker.moveCursor]
    rw [if_neg (by omega), if_neg (by omega), if_pos (by omega), neg_neg,
      if_neg (show ¬ c + n = 0 by omega)]
    simp only [Int.toNat_natCast]
    by_cases hlt : n < c + n
    · rw [if_pos hlt]
      simp only [Picker.mk.injEq, true_and]
      omega
    · rw [if_neg hlt]
      simp only [Picker.mk.injEq, true_and]
      omega

/-- C8, amended, witness: the round-trip theorem applied with 3 filtered
entries, cursor 0 and `n = 2`. -/
theorem move_cursor_roundtrip_without_clamp_witness :
    Picker.moveCursor (Picker.moveCursor ⟨3, 0⟩ ((2 : Nat) : Int))
      (-((2 : Nat) : Int)) = ⟨3, 0⟩ :=
  move_cursor_roundtrip_without_clamp 3 0 2 (by decide) (by decide) (by decide)

/-- C10. A property line (not blank, no leading `;` or `[`, with a prior
section) is split by `Ini::parse` at its *first* `=`: the key is the text
before it and the value is the entire remainder of the line — so values may
themselves contain further `=` characters — and the line parses
successfully. -/
theorem property_line_splits_at_first_equals (st : IniState) (i : Nat)
    (line : List Char) (j : Nat)
    (hsec : st.sections ≠ [])
    (hfind : line.findIdx? (· = '=') = some j) (hj : 0 < j)
    (hsemi : line.head? ≠ some ';') (hbr : line.head? ≠ some '[') :
    iniParseStep st i line =
      .ok { st with
            properties := st.properties ++ [(line.take j, line.drop (j + 1))] } := by
  have hne : line ≠ [] := by
    rintro rfl
    simp [List.findIdx?] at hfind
  unfold iniParseStep
  rw [if_neg (by simp [hne, hsemi]), if_neg hbr, if_neg hsec, hfind]
  obtain ⟨j', rfl⟩ : ∃ j', j = j' + 1 := ⟨j - 1, by omega⟩
  rfl

/-- C10, witness: the split theorem applied to the line `"k=v=w"` after a
section `[a]`; the recorded value `"v=w"` itself contains `=`. -/
theorem property_line_splits_witness :
    iniParseStep ⟨[(['a'], ⟨0, 0⟩)], []⟩ 1 "k=v=w".toList =
      .ok { sections := [(['a'], ⟨0, 0⟩)]
            properties := [] ++ [("k=v=w".toList.take 1, "k=v=w".toList.drop 2)] } :=
  property_line_splits_at_first_equals ⟨[(['a'], ⟨0, 0⟩)], []⟩ 1 "k=v=w".toList 1
    (by decide) (by decide) (by decide) (by decide) (by decide)

end Pepper
